import Mathlib

/-!
Verification of the open-pulsar chat agents (telegram-agent.py,
instagram-agent.py, teams-agent.py).

Python strings are embedded as `List Char` (or Lean `String`, whose data is a
`List Char`).  Python dicts keyed by strings or ints are embedded as
association lists with first-match lookup, which coincides with dict lookup
because every mutation below keeps keys unique.  Effectful calls (Telegram
sends, executor submissions, state-file writes) are embedded as an explicit
`Effect` trace returned by each operation, in program order.
-/

/-- Python `str.isspace` characters relevant to `str.strip()` (ASCII range). -/
def pyIsSpace (c : Char) : Bool :=
  c = ' ' || c = '\t' || c = '\n' || c = '\r' || c = '\x0b' || c = '\x0c'

/-- Python `str.strip()`: remove leading and trailing whitespace. -/
def pyStrip (s : List Char) : List Char :=
  ((s.dropWhile pyIsSpace).reverse.dropWhile pyIsSpace).reverse

/-- `pyStrip` lifted to Lean strings. -/
def pyStripStr (s : String) : String := ⟨pyStrip s.data⟩

/-- Python `s[:n]` on a string. -/
def takeStr (n : Nat) (s : String) : String := ⟨s.data.take n⟩

/-- Python lexicographic string comparison `a < b` (code-point order, a proper
prefix is smaller). -/
def lexLt : List Char → List Char → Bool
  | [], [] => false
  | [], _ :: _ => true
  | _ :: _, [] => false
  | a :: as, b :: bs => if a < b then true else if b < a then false else lexLt as bs

/-- `a < b` on Lean strings, embedding Python string comparison. -/
def strLt (a b : String) : Bool := lexLt a.data b.data

/- ---------------------------------------------------------------------------
Reply chunking: telegram-agent.py lines 200-246 (`chunk_reply`).
The same algorithm appears in instagram-agent.py (limit 1000) and
teams-agent.py (limit 4000); the claims cite the Telegram instance.
--------------------------------------------------------------------------- -/

/-- telegram-agent.py `_TG_MAX_CHARS = 4096`. -/
def TG_MAX_CHARS : Nat := 4096

/-- telegram-agent.py `_CHUNK_HEADER_MAX = 8`. -/
def CHUNK_HEADER_MAX : Nat := 8

/-- Python `text.split("\n\n")`, leftmost non-overlapping matches.
`acc` is the piece accumulated since the last separator. -/
def splitDblAux : List Char → List Char → List (List Char)
  | '\n' :: '\n' :: rest, acc => acc :: splitDblAux rest []
  | c :: rest, acc => splitDblAux rest (acc ++ [c])
  | [], acc => [acc]

/-- Python `text.split("\n\n")`. -/
def splitDbl (s : List Char) : List (List Char) := splitDblAux s []

/-- Python `para.replace(". ", ".\n")`, leftmost non-overlapping matches. -/
def replDotSpace : List Char → List Char
  | '.' :: ' ' :: rest => '.' :: '\n' :: replDotSpace rest
  | c :: rest => c :: replDotSpace rest
  | [] => []

/-- Python `s.split("\n")`. -/
def splitNlAux : List Char → List Char → List (List Char)
  | [], acc => [acc]
  | c :: rest, acc =>
    if c = '\n' then acc :: splitNlAux rest [] else splitNlAux rest (acc ++ [c])

/-- Python `s.split("\n")`. -/
def splitNl (s : List Char) : List (List Char) := splitNlAux s []

/-- The `while len(sentence) > chunk_size` hard-cut loop of `chunk_reply`:
returns the emitted fixed-size slices and the final remainder (which the code
assigns to `current`). -/
def hardCut (B : Nat) (s : List Char) : List (List Char) × List Char :=
  if _h : 0 < B ∧ B < s.length then
    let r := hardCut B (s.drop B)
    (s.take B :: r.1, r.2)
  else ([], s)
termination_by s.length
decreasing_by simp; omega

/-- The mutable locals `chunks` / `current` of `chunk_reply`. -/
structure ChunkState where
  chunks : List (List Char)
  current : List Char
deriving DecidableEq

/-- One iteration of the `for sentence in sentences` loop of `chunk_reply`. -/
def stepSentence (B : Nat) (st : ChunkState) (sentence : List Char) : ChunkState :=
  let candidate := if st.current = [] then sentence
                   else pyStrip (st.current ++ ' ' :: sentence)
  if candidate.length ≤ B then { st with current := candidate }
  else
    let chunks1 := if st.current = [] then st.chunks else st.chunks ++ [st.current]
    let r := hardCut B sentence
    { chunks := chunks1 ++ r.1, current := r.2 }

/-- One iteration of the `for para in paragraphs` loop of `chunk_reply`. -/
def stepPara (B : Nat) (st : ChunkState) (para : List Char) : ChunkState :=
  let candidate := if st.current = [] then para
                   else pyStrip (st.current ++ '\n' :: '\n' :: para)
  if candidate.length ≤ B then { st with current := candidate }
  else
    let chunks1 := if st.current = [] then st.chunks else st.chunks ++ [st.current]
    if B < para.length then
      (splitNl (replDotSpace para)).foldl (stepSentence B) { chunks := chunks1, current := [] }
    else { chunks := chunks1, current := para }

/-- The body of `chunk_reply` before labelling: paragraph loop plus the final
`if current: chunks.append(current)`. -/
def chunkReplyCore (B : Nat) (text : List Char) : List (List Char) :=
  let st := (splitDbl text).foldl (stepPara B) { chunks := [], current := [] }
  if st.current = [] then st.chunks else st.chunks ++ [st.current]

/-- Decimal digits of a natural number, as produced by Python string
formatting.  Fuel-based structural recursion (fuel `n + 1` always suffices). -/
def natDigitsAux : Nat → Nat → List Char → List Char
  | 0, _, acc => acc
  | fuel + 1, n, acc =>
    let d := Char.ofNat (48 + n % 10)
    if n < 10 then d :: acc
    else natDigitsAux fuel (n / 10) (d :: acc)

/-- Decimal representation of `n` as characters (`f"{n}"`). -/
def natDigits (n : Nat) : List Char := natDigitsAux (n + 1) n []

/-- The chunk label `f"[{i + 1}/{total}] "` (0-based index `i`). -/
def labelOf (i total : Nat) : List Char :=
  '[' :: (natDigits (i + 1) ++ '/' :: (natDigits total ++ [']', ' ']))

/-- The labelling comprehension `[f"[{i + 1}/{total}] {c}" ...]`, with `i`
starting at the given index. -/
def addLabelsAux (total : Nat) : Nat → List (List Char) → List (List Char)
  | _, [] => []
  | i, c :: cs => (labelOf i total ++ c) :: addLabelsAux total (i + 1) cs

/-- telegram-agent.py `chunk_reply` (lines 204-246). -/
def chunk_reply (text : List Char) : List (List Char) :=
  if text.length ≤ TG_MAX_CHARS then [text]
  else
    let cs := chunkReplyCore (TG_MAX_CHARS - CHUNK_HEADER_MAX) text
    if 1 < cs.length then addLabelsAux cs.length 0 cs else cs

/- ---------------------------------------------------------------------------
Observable effects.  Each embedded operation returns, besides its state
updates, the ordered trace of its outward-visible actions: Telegram sends,
submissions to a worker pool (tagged with the pool handle the caller passed),
backend subprocess invocations, and persistence writes.
--------------------------------------------------------------------------- -/

inductive Effect where
  | sendText (chatId : Int) (text : String)
  | submitChat (executor : Nat) (chatId : Int) (prompt : String)
  | submitTask (executor : Nat) (chatId : Int) (taskText : String)
  | runClaude (cmd : List String)
  | saveSessions
  | saveOffset (offset : Nat)
deriving DecidableEq

/-- The executor a submission effect targets, if it is a submission. -/
def execOf : Effect → Option Nat
  | .submitChat e _ _ => some e
  | .submitTask e _ _ => some e
  | _ => none

/-- The offsets persisted by `save_offset` calls within a trace, in order. -/
def savedOffsets (effs : List Effect) : List Nat :=
  effs.filterMap (fun e => match e with | .saveOffset o => some o | _ => none)

/- ---------------------------------------------------------------------------
Session store: the JSON dict persisted in telegram-sessions.json, embedded as
an association list with unique keys (dict semantics).
--------------------------------------------------------------------------- -/

/-- Python `sessions[key] = value`: replace the binding or append a new one. -/
def sSet : List (String × String) → String → String → List (String × String)
  | [], k, v => [(k, v)]
  | p :: rest, k, v => if p.1 = k then (k, v) :: rest else p :: sSet rest k v

/-- Python `del sessions[key]`. -/
def sDel (s : List (String × String)) (k : String) : List (String × String) :=
  s.filter (fun p => p.1 != k)

/-- No association stores an empty resume handle (the implicit invariant of
the session store). -/
def goodSessionsB (s : List (String × String)) : Bool :=
  s.all (fun p => p.2 != "")

/- ---------------------------------------------------------------------------
Backend invocation: telegram-agent.py lines 253-291 (`run_claude_chat`).
The subprocess itself is opaque; `RunOutcome` enumerates the observable
outcomes of the `subprocess.run` call and of parsing its stdout.
--------------------------------------------------------------------------- -/

/-- telegram-agent.py line 274: `timeout=300` on the `subprocess.run` call. -/
def claudeTimeoutSeconds : Nat := 300

inductive RunOutcome where
  | timedOut
  | cliMissing
  | exitNonzero (stderr stdout : String)
  | outputNotJson (stdout : String)
  | outputJson (result : String) (sessionField : String)
deriving DecidableEq

def timeoutSentinel : String := "(Request timed out after 5 minutes. Please try again.)"

def cliMissingSentinel : String := "(Error: claude CLI not found. Is it installed and in PATH?)"

def claudeErrorSentinel : String := "(Claude error — check agent logs for details.)"

def emptyResponseSentinel : String := "(Empty response.)"

def noResponseSentinel : String := "(No response from Claude.)"

/-- The argv built at telegram-agent.py lines 260-270: resume when a session
id is present, otherwise seed a fresh session with the system prompt. -/
def buildClaudeCmd (model session_id system_prompt prompt : String) : List String :=
  ["claude", "-p", "--dangerously-skip-permissions", "--output-format", "json",
   "--model", model]
  ++ (if session_id != "" then ["--resume", session_id]
      else ["--system-prompt", system_prompt])
  ++ [prompt]

/-- telegram-agent.py lines 272-291: result handling of `run_claude_chat`.
`session_id` is the stored handle with Python falsiness folded to `""`;
returns `(reply, new_session_id)` exactly as the source does. -/
def run_claude_chat (outcome : RunOutcome) (session_id : String) : String × String :=
  match outcome with
  | .timedOut => (timeoutSentinel, session_id)
  | .cliMissing => (cliMissingSentinel, "")
  | .exitNonzero _ _ => (claudeErrorSentinel, session_id)
  | .outputNotJson stdout =>
    let t : String := ⟨(pyStrip stdout.data).take 500⟩
    ((if t = "" then emptyResponseSentinel else t), session_id)
  | .outputJson result sessionField =>
    let reply := pyStripStr result
    ((if reply = "" then noResponseSentinel else reply),
     if sessionField != "" then sessionField else session_id)

/-- Outcomes after which the claim expects the stored handle to be unchanged:
every failure, plus a successful turn whose JSON carried no session id. -/
def failedOutcome : RunOutcome → Bool
  | .timedOut => true
  | .cliMissing => true
  | .exitNonzero _ _ => true
  | .outputNotJson _ => true
  | .outputJson _ sessionField => sessionField == ""

/-- telegram-agent.py lines 359-394 (`_run_chat`): one chat turn inside a
worker thread.  `key = str(chat_id)`; writes the session store only when the
returned handle is non-empty, persists it, then sends the reply.  The
typing-indicator thread is pure I/O and is not modelled. -/
def runChatTurn (outcome : RunOutcome) (chatId : Int)
    (sessions : List (String × String)) (model systemPrompt soul prompt : String) :
    List (String × String) × List Effect :=
  let key := toString chatId
  let session_id := (sessions.lookup key).getD ""
  let sys := if session_id = "" && soul != "" then soul ++ "\n\n" ++ systemPrompt
             else systemPrompt
  let r := run_claude_chat outcome session_id
  let cmd := buildClaudeCmd model session_id sys prompt
  if r.2 != "" then
    (sSet sessions key r.2,
     [Effect.runClaude cmd, Effect.saveSessions, Effect.sendText chatId r.1])
  else
    (sessions, [Effect.runClaude cmd, Effect.sendText chatId r.1])

/- ---------------------------------------------------------------------------
Conversation gate: telegram-agent.py lines 319-346 and 397-432.
`_active_chats` / `_active_tasks` are the per-class in-flight maps; the lock
discipline makes check-and-insert atomic, so the embedding is the sequential
function on the map.
--------------------------------------------------------------------------- -/

/-- Python `dict.pop(chat_id, None)`: remove the binding if present, never
raising. -/
def popKey {α : Type} (m : List (Int × α)) (k : Int) : List (Int × α) :=
  m.filter (fun p => p.1 != k)

/-- telegram-agent.py lines 412-432 (`queue_chat`): reject when a chat unit is
in flight for this conversation, otherwise mark and submit. -/
def queue_chat (executor : Nat) (prompt : String) (chatId : Int)
    (activeChats : List (Int × Bool)) : List (Int × Bool) × List Effect :=
  if (activeChats.lookup chatId).isSome then
    (activeChats, [Effect.sendText chatId "Still thinking about your previous message…"])
  else
    (activeChats ++ [(chatId, true)], [Effect.submitChat executor chatId prompt])

/-- telegram-agent.py lines 331-346 (`queue_agent_loop_task`). -/
def queue_agent_loop_task (executor : Nat) (taskText : String) (chatId : Int)
    (activeTasks : List (Int × String)) : List (Int × String) × List Effect :=
  match activeTasks.lookup chatId with
  | some existing =>
    (activeTasks,
     [Effect.sendText chatId ("A task is already running: " ++ takeStr 80 existing)])
  | none =>
    (activeTasks ++ [(chatId, taskText)],
     [Effect.sendText chatId "Task received, working on it...",
      Effect.submitTask executor chatId taskText])

/-- telegram-agent.py lines 319-328 (`_task_done_callback`): obtain the result
(or the exception message), release the slot in the `finally` block regardless
of how the unit ended, then send. -/
def taskDoneCallback (outcome : Except String String) (chatId : Int)
    (activeTasks : List (Int × String)) : List (Int × String) × List Effect :=
  let result := match outcome with
    | .ok r => r
    | .error e => "Task error: " ++ e
  (popKey activeTasks chatId, [Effect.sendText chatId result])

/-- telegram-agent.py lines 397-409 (`_chat_done_callback`): surface errors,
release the slot in the `finally` block on both paths. -/
def chatDoneCallback (outcome : Except String Unit) (chatId : Int)
    (activeChats : List (Int × Bool)) : List (Int × Bool) × List Effect :=
  (popKey activeChats chatId,
   match outcome with
   | .ok _ => []
   | .error _ => [Effect.sendText chatId "(Chat error — check agent logs.)"])

/- ---------------------------------------------------------------------------
Configuration and command handling: telegram-agent.py lines 439-481.
The config dict is embedded as a structure holding the fields the dispatcher
reads; each field carries the `.get` default already folded in (`mode`
represents `cfg.get("mode", "chat")`, `model` represents
`cfg.get("model", "sonnet")`, and so on).  It is a single process-wide value.
--------------------------------------------------------------------------- -/

structure Cfg where
  mode : String
  model : String
  systemPrompt : String
  soul : String
  allowedIds : List Int
  token : String
deriving DecidableEq

/-- `parts[0].lower().split("@")[0]` of `text.split(None, 1)`. -/
def cmdOf (text : List Char) : List Char :=
  (((text.dropWhile pyIsSpace).takeWhile (fun c => !pyIsSpace c)).map Char.toLower).takeWhile
    (fun c => c != '@')

/-- `parts[1].strip()` of `text.split(None, 1)` (empty when there is no
second part). -/
def argsOf (text : List Char) : List Char :=
  pyStrip ((text.dropWhile pyIsSpace).dropWhile (fun c => !pyIsSpace c))

def helpText : String :=
  "/reset — clear this conversation and start fresh\n" ++
  "/mode chat — direct conversation with Claude\n" ++
  "/mode task — execute via agent-loop.sh\n" ++
  "/status — show current mode and session count\n" ++
  "/help — show this message\n\n" ++
  "Anything else is forwarded to Claude."

/-- telegram-agent.py lines 439-481 (`handle_command`).  Reads the in-flight
task map only for the `/status` count.  Callers (dispatch_message) guarantee
`text` is non-empty and starts with `/`. -/
def handle_command (text : List Char) (chatId : Int)
    (sessions : List (String × String)) (activeTasks : List (Int × String))
    (cfg : Cfg) : List (String × String) × Cfg × List Effect :=
  let cmd := cmdOf text
  let args := argsOf text
  if cmd = "/reset".data then
    let key := toString chatId
    if (sessions.lookup key).isSome then
      (sDel sessions key, cfg,
       [Effect.saveSessions, Effect.sendText chatId "Session reset. Starting fresh."])
    else
      (sessions, cfg, [Effect.sendText chatId "Session reset. Starting fresh."])
  else if cmd = "/mode".data then
    if args = "chat".data ∨ args = "task".data then
      (sessions, { cfg with mode := ⟨args⟩ },
       [Effect.sendText chatId ("Switched to " ++ (⟨args⟩ : String) ++ " mode.")])
    else
      (sessions, cfg, [Effect.sendText chatId "Usage: /mode chat | /mode task"])
  else if cmd = "/status".data then
    (sessions, cfg,
     [Effect.sendText chatId
       ("Active sessions: " ++ toString sessions.length ++
        "\nActive tasks: " ++ toString activeTasks.length ++
        "\nMode: " ++ cfg.mode ++ "\nModel: " ++ cfg.model)])
  else if cmd = "/help".data then
    (sessions, cfg, [Effect.sendText chatId helpText])
  else
    (sessions, cfg,
     [Effect.sendText chatId ("Unknown command: " ++ (⟨cmd⟩ : String) ++ ". Try /help.")])

/- ---------------------------------------------------------------------------
Message dispatch and the polling loop: telegram-agent.py lines 488-515 and
555-568.
--------------------------------------------------------------------------- -/

structure TgMsg where
  chatId : Int
  fromId : Int
  text : String
  username : String
deriving DecidableEq

/-- The process-wide mutable state the Telegram dispatcher touches. -/
structure AgentState where
  sessions : List (String × String)
  cfg : Cfg
  activeChats : List (Int × Bool)
  activeTasks : List (Int × String)
deriving DecidableEq

/-- telegram-agent.py lines 488-515 (`dispatch_message`).  `executor` is the
(single) worker pool handle `main` passes in; the source signature has exactly
one executor parameter, used for both work classes. -/
def dispatch_message (executor : Nat) (m : TgMsg) (st : AgentState) :
    AgentState × List Effect :=
  let text := pyStripStr m.text
  if text = "" then (st, [])
  else if st.cfg.allowedIds ≠ [] ∧ m.fromId ∉ st.cfg.allowedIds then (st, [])
  else if text.data.head? = some '/' then
    let r := handle_command text.data m.chatId st.sessions st.activeTasks st.cfg
    ({ st with sessions := r.1, cfg := r.2.1 }, r.2.2)
  else if st.cfg.mode = "task" then
    let r := queue_agent_loop_task executor text m.chatId st.activeTasks
    ({ st with activeTasks := r.1 }, r.2)
  else
    let r := queue_chat executor text m.chatId st.activeChats
    ({ st with activeChats := r.1 }, r.2)

/-- telegram-agent.py line 555: `main` creates exactly one
`ThreadPoolExecutor(max_workers=4)`; this is the list of worker-pool
capacities the process creates. -/
def telegramMaxWorkers : Nat := 4

def tgMainExecutorCapacities : List Nat := [telegramMaxWorkers]

structure TgUpdate where
  updateId : Nat
  message : Option TgMsg
  editedMessage : Option TgMsg
deriving DecidableEq

/-- telegram-agent.py lines 560-568: the per-update body of one poll
iteration.  For every update the offset becomes `update_id + 1` and is saved
immediately, before the message (if any) is dispatched. -/
def tgProcessUpdates (executor : Nat) (offset : Nat) (st : AgentState) :
    List TgUpdate → Nat × AgentState × List Effect
  | [] => (offset, st, [])
  | u :: rest =>
    let offset1 := u.updateId + 1
    match u.message.or u.editedMessage with
    | some m =>
      let r := dispatch_message executor m st
      let k := tgProcessUpdates executor offset1 r.1 rest
      (k.1, k.2.1, Effect.saveOffset offset1 :: (r.2 ++ k.2.2))
    | none =>
      let k := tgProcessUpdates executor offset1 st rest
      (k.1, k.2.1, Effect.saveOffset offset1 :: k.2.2)

/- ---------------------------------------------------------------------------
Teams polling: teams-agent.py lines 268-348.
--------------------------------------------------------------------------- -/

structure TeamsItem where
  id : String
  messageType : String
  contentType : String
  content : String
  fromUserId : String
  fromName : Option String
deriving DecidableEq

structure TeamsMsg where
  chatId : String
  msgId : String
  senderId : String
  senderName : String
  text : String
deriving DecidableEq

/-- The tag-removal part of teams-agent.py `_strip_html`
(`re.sub(r"<[^>]+>", "", text)`): single pass; `some buf` buffers the
characters seen since an unclosed `<`. -/
def stripTagsAux : List Char → Option (List Char) → List Char
  | [], none => []
  | [], some buf => '<' :: buf
  | c :: rest, none =>
    if c = '<' then stripTagsAux rest (some []) else c :: stripTagsAux rest none
  | c :: rest, some buf =>
    if c = '>' then
      if buf = [] then '<' :: '>' :: stripTagsAux rest none
      else stripTagsAux rest none
    else stripTagsAux rest (some (buf ++ [c]))

/-- Python `html.unescape`, restricted to the five standard entities that can
appear in the texts this formalization reasons about; the full HTML5 entity
table is outside the embedding (no claim depends on entity decoding). -/
def htmlUnescapeBasic : List Char → List Char
  | '&' :: 'a' :: 'm' :: 'p' :: ';' :: rest => '&' :: htmlUnescapeBasic rest
  | '&' :: 'l' :: 't' :: ';' :: rest => '<' :: htmlUnescapeBasic rest
  | '&' :: 'g' :: 't' :: ';' :: rest => '>' :: htmlUnescapeBasic rest
  | '&' :: 'q' :: 'u' :: 'o' :: 't' :: ';' :: rest => '"' :: htmlUnescapeBasic rest
  | '&' :: '#' :: '3' :: '9' :: ';' :: rest => '\'' :: htmlUnescapeBasic rest
  | c :: rest => c :: htmlUnescapeBasic rest
  | [] => []

/-- teams-agent.py lines 268-271 (`_strip_html`). -/
def teams_strip_html (s : String) : String :=
  ⟨pyStrip (htmlUnescapeBasic (stripTagsAux s.data none))⟩

/-- The `for item in items` loop of teams-agent.py `_fetch_messages_since`
(lines 302-344): threads the high-water mark through every item, breaks at the
first already-seen id, and filters by type, emptiness and sender only after
the mark is updated. -/
def teamsFetchLoop (selfId chatId lastSeen : String) :
    List TeamsItem → String → List TeamsMsg × String
  | [], maxSeen => ([], maxSeen)
  | item :: rest, maxSeen =>
    if item.id = "" then teamsFetchLoop selfId chatId lastSeen rest maxSeen
    else
      let maxSeen1 := if strLt maxSeen item.id then item.id else maxSeen
      if lastSeen ≠ "" ∧ strLt lastSeen item.id = false then ([], maxSeen1)
      else if item.messageType ≠ "message" then
        teamsFetchLoop selfId chatId lastSeen rest maxSeen1
      else
        let text := if item.contentType = "html" then teams_strip_html item.content
                    else pyStripStr item.content
        if text = "" then teamsFetchLoop selfId chatId lastSeen rest maxSeen1
        else if item.fromUserId = selfId then
          teamsFetchLoop selfId chatId lastSeen rest maxSeen1
        else
          let r := teamsFetchLoop selfId chatId lastSeen rest maxSeen1
          ({ chatId := chatId, msgId := item.id, senderId := item.fromUserId,
             senderName := item.fromName.getD item.fromUserId, text := text } :: r.1,
           r.2)

/-- teams-agent.py lines 274-348 (`_fetch_messages_since`): messages are
collected newest-first and reversed; the high-water mark starts at
`last_seen_id`. -/
def teams_fetch_messages_since (selfId chatId lastSeen : String)
    (items : List TeamsItem) : List TeamsMsg × String :=
  let r := teamsFetchLoop selfId chatId lastSeen items lastSeen
  (r.1.reverse, r.2)

/-- teams-agent.py lines 351-382 (`poll_new_messages`): per chat, fetch, then
advance the cursor whenever the high-water mark moved — before and regardless
of the authorization filter — and save at the end if anything changed. -/
def teams_poll_aux (allowed : List String) (selfId : String) :
    List (String × List TeamsItem) → List (String × String) → Bool →
    List TeamsMsg × List (String × String) × Bool
  | [], cursor, changed => ([], cursor, changed)
  | (chatId, items) :: rest, cursor, changed =>
    if chatId = "" then teams_poll_aux allowed selfId rest cursor changed
    else
      let lastSeen := (cursor.lookup chatId).getD ""
      let r := teams_fetch_messages_since selfId chatId lastSeen items
      let cursor1 := if r.2 ≠ "" ∧ strLt lastSeen r.2 then sSet cursor chatId r.2 else cursor
      let changed1 := if r.2 ≠ "" ∧ strLt lastSeen r.2 then true else changed
      let kept := if allowed = [] then r.1 else r.1.filter (fun msg => msg.senderId ∈ allowed)
      let k := teams_poll_aux allowed selfId rest cursor1 changed1
      (kept ++ k.1, k.2)

def teams_poll_new_messages (allowed : List String) (selfId : String)
    (cursor : List (String × String)) (chats : List (String × List TeamsItem)) :
    List TeamsMsg × List (String × String) × Bool :=
  teams_poll_aux allowed selfId chats cursor false

/- ---------------------------------------------------------------------------
Instagram polling: instagram-agent.py lines 208-267 (`poll_new_messages`).
--------------------------------------------------------------------------- -/

structure IgUser where
  pk : String
  username : String
deriving DecidableEq

structure IgItem where
  itemId : String
  itemType : String
  userId : String
  text : String
deriving DecidableEq

structure IgThread where
  threadId : String
  items : List IgItem
  users : List IgUser
deriving DecidableEq

structure IgMsg where
  threadId : String
  senderUsername : Option String
  text : String
  itemId : String
deriving DecidableEq

/-- instagram-agent.py lines 241-244: resolve the sender's username from the
thread's user list (first pk match), `none` when absent. -/
def igFindUsername (users : List IgUser) (pk : String) : Option String :=
  match users.find? (fun u => u.pk == pk) with
  | some u => some u.username
  | none => none

/-- The `for item in thread["items"]` loop of instagram-agent.py
`poll_new_messages` (lines 231-261): the cursor advance sits AFTER the
item-type and authorization filters, so filtered items never move the
cursor. -/
def igThreadLoop (allowed : List String) (threadId : String) (users : List IgUser)
    (lastSeen : String) :
    List IgItem → List IgMsg → List (String × String) → List IgMsg × List (String × String)
  | [], threadNew, cursor => (threadNew, cursor)
  | item :: rest, threadNew, cursor =>
    if lastSeen ≠ "" ∧ strLt lastSeen item.itemId = false then
      igThreadLoop allowed threadId users lastSeen rest threadNew cursor
    else if item.itemType ≠ "text" then
      igThreadLoop allowed threadId users lastSeen rest threadNew cursor
    else
      let senderUsername := igFindUsername users item.userId
      if !allowed.isEmpty && (match senderUsername with
                              | some u => !allowed.contains u
                              | none => true) then
        igThreadLoop allowed threadId users lastSeen rest threadNew cursor
      else
        let threadNew1 := threadNew ++
          [{ threadId := threadId, senderUsername := senderUsername,
             text := item.text, itemId := item.itemId }]
        let cursor1 := if strLt ((cursor.lookup threadId).getD "") item.itemId then
                         sSet cursor threadId item.itemId
                       else cursor
        igThreadLoop allowed threadId users lastSeen rest threadNew1 cursor1

/-- The `for thread in threads` loop of instagram-agent.py
`poll_new_messages`. -/
def ig_poll_aux (allowed : List String) :
    List IgThread → List (String × String) → List IgMsg × List (String × String)
  | [], cursor => ([], cursor)
  | thread :: rest, cursor =>
    let lastSeen := (cursor.lookup thread.threadId).getD ""
    let r := igThreadLoop allowed thread.threadId thread.users lastSeen thread.items [] cursor
    let k := ig_poll_aux allowed rest r.2
    (r.1.reverse ++ k.1, k.2)

/-- instagram-agent.py lines 208-267 (`poll_new_messages`): the cursor file is
saved only when at least one dispatchable message was collected. -/
def ig_poll_new_messages (allowed : List String) (cursor : List (String × String))
    (threads : List IgThread) : List IgMsg × List (String × String) × Bool :=
  let r := ig_poll_aux allowed threads cursor
  (r.1, r.2, !r.1.isEmpty)

/- ---------------------------------------------------------------------------
Auxiliary notions used by the statements below.
--------------------------------------------------------------------------- -/

/-- The non-whitespace characters of a text, in order.  The chunker may
normalize whitespace at paragraph/sentence boundaries; content preservation is
stated on this projection. -/
def fNW (s : List Char) : List Char := s.filter (fun c => !pyIsSpace c)

/-- All characters a chunker state accounts for: flushed chunks plus the
chunk under construction. -/
def covered (st : ChunkState) : List Char := st.chunks.flatten ++ st.current

/-- Adjacent items are strictly descending by id — the order in which the
Graph API returns messages (`$orderby createdDateTime desc`, ids are
fixed-width timestamps). -/
def descChainB : List TeamsItem → Bool
  | [] => true
  | [_] => true
  | a :: b :: rest => strLt b.id a.id && descChainB (b :: rest)

/-- The maximum of a starting marker and a list of markers under Python
string comparison (left fold, as the fetch loop computes it). -/
def listMax (m : String) (ids : List String) : String :=
  ids.foldl (fun a b => if strLt a b then b else a) m

/-- A single-thread Instagram inbox whose only item is non-text (a media
message) with marker "5", from a user who is on the allow-list. -/
def demoIgThread : IgThread :=
  { threadId := "t1",
    items := [{ itemId := "5", itemType := "media", userId := "u1", text := "hi" }],
    users := [{ pk := "u1", username := "alice" }] }

/- ---------------------------------------------------------------------------
Helper lemmas: folds, splitting, hard cut.
--------------------------------------------------------------------------- -/

theorem foldl_preserve {α β : Type} {P : α → Prop} {f : α → β → α}
    (h : ∀ a b, P a → P (f a b)) : ∀ (l : List β) (a : α), P a → P (l.foldl f a) := by
  intro l
  induction l with
  | nil => intro a ha; exact ha
  | cons b rest ih => intro a ha; exact ih _ (h a b ha)

theorem foldl_replicate_fixed {α β : Type} (f : α → β → α) (a : α) (x : β)
    (h : f a x = a) : ∀ k, (List.replicate k x).foldl f a = a := by
  intro k
  induction k with
  | zero => rfl
  | succ m ih => rw [List.replicate_succ, List.foldl_cons, h, ih]

theorem splitDblAux_cons_ne (c : Char) (rest acc : List Char)
    (hne : ∀ r, c = '\n' → rest = '\n' :: r → False) :
    splitDblAux (c :: rest) acc = splitDblAux rest (acc ++ [c]) := by
  cases rest with
  | nil => simp [splitDblAux]
  | cons d r2 =>
    by_cases hc : c = '\n'
    · subst hc
      by_cases hd : d = '\n'
      · subst hd; exact absurd rfl (hne r2 rfl)
      · simp [splitDblAux, hd]
    · simp [splitDblAux, hc]

theorem splitDblAux_no_nl (s : List Char) : ∀ (acc : List Char), '\n' ∉ s →
    splitDblAux s acc = [acc ++ s] := by
  induction s with
  | nil => intro acc _; simp [splitDblAux]
  | cons c rest ih =>
    intro acc h
    have hc : c ≠ '\n' := fun hh => h (hh ▸ List.mem_cons_self c rest)
    have hr : '\n' ∉ rest := fun hh => h (List.mem_cons_of_mem c hh)
    rw [splitDblAux_cons_ne c rest acc (fun _ h1 _ => hc h1), ih _ hr]
    simp

theorem splitDblAux_nl_repl (k : Nat) :
    splitDblAux (List.replicate (2 * k) '\n') [] = List.replicate (k + 1) [] := by
  induction k with
  | zero => simp [splitDblAux]
  | succ m ih =>
    have h2 : 2 * (m + 1) = (2 * m) + 1 + 1 := by omega
    rw [h2, List.replicate_succ, List.replicate_succ]
    simp only [splitDblAux, ih]
    simp [List.replicate_succ]

theorem replDotSpace_no_dot (s : List Char) (hdot : ('.' : Char) ∉ s) :
    replDotSpace s = s := by
  induction s with
  | nil => rfl
  | cons c rest ih =>
    have hc : c ≠ '.' := fun hh => hdot (hh ▸ List.mem_cons_self c rest)
    have hr : ('.' : Char) ∉ rest := fun hh => hdot (List.mem_cons_of_mem c hh)
    cases rest with
    | nil => simp [replDotSpace, hc]
    | cons d r2 => simp [replDotSpace, hc, ih hr]

theorem splitNlAux_no_nl (s : List Char) : ∀ (acc : List Char), '\n' ∉ s →
    splitNlAux s acc = [acc ++ s] := by
  induction s with
  | nil => intro acc _; simp [splitNlAux]
  | cons c rest ih =>
    intro acc h
    have hc : c ≠ '\n' := fun hh => h (hh ▸ List.mem_cons_self c rest)
    have hr : '\n' ∉ rest := fun hh => h (List.mem_cons_of_mem c hh)
    rw [splitNlAux, if_neg hc, ih _ hr]
    simp

theorem hardCut_le (B : Nat) (hB : 0 < B) (s : List Char) :
    (∀ c ∈ (hardCut B s).1, c.length = B) ∧ (hardCut B s).2.length ≤ B := by
  have H : ∀ (n : Nat) (s : List Char), s.length ≤ n →
      (∀ c ∈ (hardCut B s).1, c.length = B) ∧ (hardCut B s).2.length ≤ B := by
    intro n
    induction n with
    | zero =>
      intro s hs
      rw [hardCut]
      have hfalse : ¬ (0 < B ∧ B < s.length) := by omega
      simp only [hfalse, dite_false]
      simp
      omega
    | succ m ih =>
      intro s hs
      rw [hardCut]
      by_cases h : B < s.length
      · simp only [hB, h, and_self, dite_true]
        have hd : (s.drop B).length ≤ m := by simp [List.length_drop]; omega
        obtain ⟨ih1, ih2⟩ := ih (s.drop B) hd
        refine ⟨?_, ih2⟩
        intro c hc
        rcases List.mem_cons.mp hc with rfl | hc
        · simp [List.length_take]; omega
        · exact ih1 c hc
      · have hfalse : ¬ (0 < B ∧ B < s.length) := by omega
        simp only [hfalse, dite_false]
        simp
        omega
  exact H s.length s le_rfl

theorem hardCut_flatten (B : Nat) (s : List Char) :
    (hardCut B s).1.flatten ++ (hardCut B s).2 = s := by
  have H : ∀ (n : Nat) (s : List Char), s.length ≤ n →
      (hardCut B s).1.flatten ++ (hardCut B s).2 = s := by
    intro n
    induction n with
    | zero =>
      intro s hs
      rw [hardCut]
      have hfalse : ¬ (0 < B ∧ B < s.length) := by omega
      simp only [hfalse, dite_false]
      rfl
    | succ m ih =>
      intro s hs
      rw [hardCut]
      by_cases h : 0 < B ∧ B < s.length
      · simp only [h, and_self, dite_true]
        have hd : (s.drop B).length ≤ m := by simp [List.length_drop]; omega
        simp only [List.flatten_cons, List.append_assoc, ih (s.drop B) hd]
        exact List.take_append_drop B s
      · simp only [h, dite_false]
        rfl
  exact H s.length s le_rfl

theorem hardCut_replicate (B : Nat) (hB : 0 < B) (k r : Nat) (hr : 0 < r)
    (hrB : r ≤ B) (c : Char) :
    hardCut B (List.replicate (k * B + r) c) =
      (List.replicate k (List.replicate B c), List.replicate r c) := by
  induction k with
  | zero =>
    rw [hardCut]
    have hfalse : ¬ (0 < B ∧ B < (List.replicate (0 * B + r) c).length) := by
      simp [List.length_replicate]; omega
    simp only [hfalse, dite_false]
    simp
  | succ m ih =>
    rw [hardCut]
    have hlen : (List.replicate ((m + 1) * B + r) c).length = (m + 1) * B + r := by simp
    have hcond : 0 < B ∧ B < (List.replicate ((m + 1) * B + r) c).length := by
      rw [hlen]; constructor; exact hB; nlinarith
    simp only [hcond, and_self, dite_true]
    have htake : (List.replicate ((m + 1) * B + r) c).take B = List.replicate B c := by
      rw [List.take_replicate]
      congr 1
      omega
    have hdrop : (List.replicate ((m + 1) * B + r) c).drop B = List.replicate (m * B + r) c := by
      rw [List.drop_replicate]
      congr 1
      ring_nf
      omega
    rw [htake, hdrop, ih]
    simp [List.replicate_succ]

/- ---------------------------------------------------------------------------
Non-whitespace content preservation machinery.
--------------------------------------------------------------------------- -/

theorem fNW_append (a b : List Char) : fNW (a ++ b) = fNW a ++ fNW b := by
  simp [fNW]

theorem fNW_cons_ws (c : Char) (h : pyIsSpace c = true) (s : List Char) :
    fNW (c :: s) = fNW s := by
  simp [fNW, List.filter_cons, h]

theorem fNW_cons_nws (c : Char) (h : pyIsSpace c = false) (s : List Char) :
    fNW (c :: s) = c :: fNW s := by
  simp [fNW, List.filter_cons, h]

theorem fNW_reverse (s : List Char) : fNW s.reverse = (fNW s).reverse := by
  simp [fNW, List.filter_reverse]

theorem fNW_dropWhile_ws (s : List Char) : fNW (s.dropWhile pyIsSpace) = fNW s := by
  induction s with
  | nil => rfl
  | cons c rest ih =>
    by_cases hc : pyIsSpace c
    · rw [List.dropWhile_cons_of_pos hc, ih, fNW_cons_ws c hc]
    · rw [List.dropWhile_cons_of_neg hc]

theorem fNW_pyStrip (s : List Char) : fNW (pyStrip s) = fNW s := by
  unfold pyStrip
  rw [fNW_reverse, fNW_dropWhile_ws, fNW_reverse, List.reverse_reverse,
      fNW_dropWhile_ws]

theorem fNW_flatten_splitDblAux (s acc : List Char) :
    fNW (splitDblAux s acc).flatten = fNW acc ++ fNW s := by
  induction s, acc using splitDblAux.induct with
  | case1 rest acc ih =>
    rw [splitDblAux, List.flatten_cons, fNW_append, ih,
        fNW_cons_ws '\n' (by decide), fNW_cons_ws '\n' (by decide)]
    simp [fNW]
  | case2 c rest acc hne ih =>
    rw [splitDblAux_cons_ne c rest acc (fun r h1 h2 => hne r h1 h2), ih, fNW_append]
    by_cases hc : pyIsSpace c
    · rw [fNW_cons_ws c hc]
      simp [fNW, List.filter_cons, hc]
    · rw [fNW_cons_nws c (by simpa using hc)]
      simp [fNW, List.filter_cons, hc]
  | case3 acc =>
    simp [splitDblAux, fNW]

theorem fNW_replDotSpace (s : List Char) : fNW (replDotSpace s) = fNW s := by
  induction s using replDotSpace.induct with
  | case1 rest ih =>
    rw [replDotSpace, fNW_cons_nws '.' (by decide), fNW_cons_ws '\n' (by decide),
        fNW_cons_nws '.' (by decide), fNW_cons_ws ' ' (by decide), ih]
  | case2 c rest hne ih =>
    have heq : replDotSpace (c :: rest) = c :: replDotSpace rest := by
      cases rest with
      | nil => simp [replDotSpace]
      | cons d r2 =>
        by_cases hc : c = '.'
        · subst hc
          by_cases hd : d = ' '
          · subst hd; exact absurd rfl (hne r2 rfl)
          · simp [replDotSpace, hd]
        · simp [replDotSpace, hc]
    rw [heq]
    by_cases hc : pyIsSpace c
    · rw [fNW_cons_ws c hc, fNW_cons_ws c hc, ih]
    · rw [fNW_cons_nws c (by simpa using hc), fNW_cons_nws c (by simpa using hc), ih]
  | case3 =>
    rfl

theorem fNW_flatten_splitNlAux (s acc : List Char) :
    fNW (splitNlAux s acc).flatten = fNW acc ++ fNW s := by
  induction s, acc using splitNlAux.induct with
  | case1 acc =>
    simp [splitNlAux, fNW]
  | case2 rest acc ih =>
    rw [splitNlAux, if_pos rfl, List.flatten_cons, fNW_append, ih,
        fNW_cons_ws '\n' (by decide)]
    simp [fNW]
  | case3 c rest acc hc ih =>
    rw [splitNlAux, if_neg hc, ih, fNW_append]
    by_cases hsp : pyIsSpace c
    · rw [fNW_cons_ws c hsp]
      simp [fNW, List.filter_cons, hsp]
    · rw [fNW_cons_nws c (by simpa using hsp)]
      simp [fNW, List.filter_cons, hsp]

theorem stepSentence_cov (B : Nat) (st : ChunkState) (s : List Char) :
    fNW (covered (stepSentence B st s)) = fNW (covered st) ++ fNW s := by
  have hhc := hardCut_flatten B s
  simp only [stepSentence]
  by_cases hcur : st.current = []
  · simp only [hcur, ite_true, if_pos]
    split
    · simp [covered, hcur, fNW_append]
    · simp only [covered, List.flatten_append, List.append_assoc, hhc]
      simp [covered, hcur, fNW_append]
  · simp only [hcur, ite_false, if_neg]
    have hcand : fNW (pyStrip (st.current ++ ' ' :: s)) = fNW st.current ++ fNW s := by
      rw [fNW_pyStrip, fNW_append, fNW_cons_ws ' ' (by decide)]
    split
    · simp [covered, fNW_append, hcand]
    · simp only [covered, List.flatten_append, List.append_assoc, List.flatten_cons,
        List.flatten_nil, List.append_nil, hhc]
      simp [fNW_append]

theorem foldl_stepSentence_cov (B : Nat) (l : List (List Char)) :
    ∀ st, fNW (covered (l.foldl (stepSentence B) st)) = fNW (covered st) ++ fNW l.flatten := by
  induction l with
  | nil => intro st; simp [fNW]
  | cons s rest ih =>
    intro st
    rw [List.foldl_cons, ih, stepSentence_cov, List.flatten_cons, fNW_append,
        List.append_assoc]

theorem stepPara_cov (B : Nat) (st : ChunkState) (para : List Char) :
    fNW (covered (stepPara B st para)) = fNW (covered st) ++ fNW para := by
  have hsents : fNW (splitNl (replDotSpace para)).flatten = fNW para := by
    rw [splitNl, fNW_flatten_splitNlAux, fNW_replDotSpace]
    rfl
  simp only [stepPara]
  by_cases hcur : st.current = []
  · simp only [hcur, ite_true, if_pos]
    split
    · simp [covered, hcur, fNW_append]
    · split
      · rw [foldl_stepSentence_cov, hsents]
        simp [covered, hcur, fNW_append]
      · simp [covered, hcur, fNW_append]
  · simp only [hcur, ite_false, if_neg]
    have hcand : fNW (pyStrip (st.current ++ '\n' :: '\n' :: para)) =
        fNW st.current ++ fNW para := by
      rw [fNW_pyStrip, fNW_append, fNW_cons_ws '\n' (by decide),
          fNW_cons_ws '\n' (by decide)]
    split
    · simp [covered, fNW_append, hcand]
    · split
      · rw [foldl_stepSentence_cov, hsents]
        simp [covered, fNW_append]
      · simp [covered, fNW_append]

theorem foldl_stepPara_cov (B : Nat) (l : List (List Char)) :
    ∀ st, fNW (covered (l.foldl (stepPara B) st)) = fNW (covered st) ++ fNW l.flatten := by
  induction l with
  | nil => intro st; simp [fNW]
  | cons s rest ih =>
    intro st
    rw [List.foldl_cons, ih, stepPara_cov, List.flatten_cons, fNW_append,
        List.append_assoc]

theorem chunkReplyCore_cov (B : Nat) (text : List Char) :
    fNW (chunkReplyCore B text).flatten = fNW text := by
  simp only [chunkReplyCore]
  have h := foldl_stepPara_cov B (splitDbl text) { chunks := [], current := [] }
  have hsplit : fNW (splitDbl text).flatten = fNW text := by
    rw [splitDbl, fNW_flatten_splitDblAux]
    rfl
  rw [hsplit] at h
  simp only [covered, List.flatten_nil, List.nil_append, List.append_nil] at h
  rw [show fNW [] = [] from rfl, List.nil_append] at h
  split
  · rename_i hc
    rw [← h, hc, List.append_nil]
  · rw [← h]
    simp [fNW_append]

/- ---------------------------------------------------------------------------
Chunk length bounds.
--------------------------------------------------------------------------- -/

theorem pyStrip_length_le (s : List Char) : (pyStrip s).length ≤ s.length := by
  unfold pyStrip
  calc ((s.dropWhile pyIsSpace).reverse.dropWhile pyIsSpace).reverse.length
      = ((s.dropWhile pyIsSpace).reverse.dropWhile pyIsSpace).length := by
        rw [List.length_reverse]
    _ ≤ (s.dropWhile pyIsSpace).reverse.length := (List.dropWhile_sublist _).length_le
    _ = (s.dropWhile pyIsSpace).length := by rw [List.length_reverse]
    _ ≤ s.length := (List.dropWhile_sublist _).length_le

theorem stepSentence_bounded (B : Nat) (hB : 0 < B) (st : ChunkState)
    (s : List Char) (h : (∀ c ∈ st.chunks, c.length ≤ B) ∧ st.current.length ≤ B) :
    (∀ c ∈ (stepSentence B st s).chunks, c.length ≤ B) ∧
      (stepSentence B st s).current.length ≤ B := by
  obtain ⟨h1, h2⟩ := h
  obtain ⟨hhc1, hhc2⟩ := hardCut_le B hB s
  simp only [stepSentence]
  by_cases hlen : (if st.current = [] then s
                   else pyStrip (st.current ++ ' ' :: s)).length ≤ B
  · rw [if_pos hlen]
    exact ⟨h1, hlen⟩
  · rw [if_neg hlen]
    constructor
    · intro c hc
      rcases List.mem_append.mp hc with hc | hc
      · by_cases hcur : st.current = []
        · simp only [hcur, ite_true] at hc
          exact h1 c hc
        · simp only [hcur, ite_false] at hc
          rcases List.mem_append.mp hc with hc | hc
          · exact h1 c hc
          · rw [List.mem_singleton.mp hc]
            exact h2
      · rw [hhc1 c hc]
    · exact hhc2

theorem stepPara_bounded (B : Nat) (hB : 0 < B) (st : ChunkState)
    (para : List Char) (h : (∀ c ∈ st.chunks, c.length ≤ B) ∧ st.current.length ≤ B) :
    (∀ c ∈ (stepPara B st para).chunks, c.length ≤ B) ∧
      (stepPara B st para).current.length ≤ B := by
  obtain ⟨h1, h2⟩ := h
  have hchunks1 : ∀ c ∈ (if st.current = [] then st.chunks else st.chunks ++ [st.current]),
      c.length ≤ B := by
    intro c hc
    by_cases hcur : st.current = []
    · simp only [hcur, ite_true] at hc
      exact h1 c hc
    · simp only [hcur, ite_false] at hc
      rcases List.mem_append.mp hc with hc | hc
      · exact h1 c hc
      · rw [List.mem_singleton.mp hc]
        exact h2
  simp only [stepPara]
  by_cases hlen : (if st.current = [] then para
                   else pyStrip (st.current ++ '\n' :: '\n' :: para)).length ≤ B
  · rw [if_pos hlen]
    exact ⟨h1, hlen⟩
  · rw [if_neg hlen]
    by_cases hpara : B < para.length
    · rw [if_pos hpara]
      refine foldl_preserve
        (P := fun st => (∀ c ∈ st.chunks, c.length ≤ B) ∧ st.current.length ≤ B)
        (fun a b ha => stepSentence_bounded B hB a b ha) _ _ ?_
      exact ⟨hchunks1, by simp⟩
    · rw [if_neg hpara]
      exact ⟨hchunks1, show para.length ≤ B by omega⟩

theorem chunkReplyCore_bounded (B : Nat) (hB : 0 < B) (text : List Char) :
    ∀ c ∈ chunkReplyCore B text, c.length ≤ B := by
  simp only [chunkReplyCore]
  have h := foldl_preserve
    (P := fun st => (∀ c ∈ st.chunks, c.length ≤ B) ∧ st.current.length ≤ B)
    (fun a b ha => stepPara_bounded B hB a b ha) (splitDbl text)
    { chunks := [], current := [] } (by simp)
  intro c hc
  by_cases hcur : ((splitDbl text).foldl (stepPara B)
      { chunks := [], current := [] }).current = []
  · rw [if_pos hcur] at hc
    exact h.1 c hc
  · rw [if_neg hcur] at hc
    rcases List.mem_append.mp hc with hc | hc
    · exact h.1 c hc
    · rw [List.mem_singleton.mp hc]
      exact h.2

/- ---------------------------------------------------------------------------
Labels.
--------------------------------------------------------------------------- -/

theorem natDigits_le_two : ∀ n, n < 100 → (natDigits n).length ≤ 2 := by decide

theorem labelOf_length (i total : Nat) :
    (labelOf i total).length = 4 + (natDigits (i + 1)).length + (natDigits total).length := by
  simp [labelOf, List.length_append, List.length_cons]
  omega

theorem labelOf_length_le (i total : Nat) (hi : i < total) (htot : total ≤ 99) :
    (labelOf i total).length ≤ 8 := by
  rw [labelOf_length]
  have h1 : (natDigits (i + 1)).length ≤ 2 := natDigits_le_two (i + 1) (by omega)
  have h2 : (natDigits total).length ≤ 2 := natDigits_le_two total (by omega)
  omega

theorem addLabelsAux_length (total : Nat) :
    ∀ (i : Nat) (cs : List (List Char)), (addLabelsAux total i cs).length = cs.length := by
  intro i cs
  induction cs generalizing i with
  | nil => rfl
  | cons c rest ih => simp [addLabelsAux, ih]

theorem addLabelsAux_mem (total : Nat) :
    ∀ (cs : List (List Char)) (i : Nat) (x : List Char), x ∈ addLabelsAux total i cs →
      ∃ j c, c ∈ cs ∧ j < cs.length ∧ x = labelOf (i + j) total ++ c := by
  intro cs
  induction cs with
  | nil => intro i x hx; simp [addLabelsAux] at hx
  | cons c rest ih =>
    intro i x hx
    rcases List.mem_cons.mp hx with rfl | hx
    · exact ⟨0, c, List.mem_cons_self c rest, by simp, by simp⟩
    · obtain ⟨j, d, hd, hj, hx⟩ := ih (i + 1) x hx
      refine ⟨j + 1, d, List.mem_cons_of_mem c hd, by simp; omega, ?_⟩
      rw [hx]
      congr 2
      omega

theorem addLabelsAux_append (total : Nat) :
    ∀ (xs ys : List (List Char)) (i : Nat),
      addLabelsAux total i (xs ++ ys) =
        addLabelsAux total i xs ++ addLabelsAux total (i + xs.length) ys := by
  intro xs
  induction xs with
  | nil => intro ys i; simp [addLabelsAux]
  | cons c rest ih =>
    intro ys i
    have hidx : i + 1 + rest.length = i + (rest.length + 1) := by omega
    simp only [List.cons_append, addLabelsAux, List.length_cons]
    rw [show rest.append ys = rest ++ ys from rfl, ih, hidx]

/- ---------------------------------------------------------------------------
C3 / C4: chunker claims.
--------------------------------------------------------------------------- -/

/-- C3 (amended): every chunk returned by `chunk_reply`, its "[i/N] " label
included, has length at most the 4096-character transport limit, PROVIDED the
resulting chunk count N is at most 99 — the largest count whose labels fit the
8-character reserve.  (As originally stated, for any resulting chunk count N,
the claim is false: see the counterexample.) -/
theorem chunk_reply_chunks_bounded (text : List Char)
    (hN : (chunk_reply text).length ≤ 99) :
    ((chunk_reply text).all (fun c => c.length ≤ TG_MAX_CHARS)) = true := by
  have hB : (0 : Nat) < TG_MAX_CHARS - CHUNK_HEADER_MAX := by decide
  have h4088 : TG_MAX_CHARS - CHUNK_HEADER_MAX = 4088 := rfl
  have h4096 : TG_MAX_CHARS = 4096 := rfl
  rw [List.all_eq_true]
  intro c hc
  rw [decide_eq_true_eq]
  by_cases hlen : text.length ≤ TG_MAX_CHARS
  · simp only [chunk_reply, hlen, ite_true] at hc
    rw [List.mem_singleton.mp hc]
    exact hlen
  · simp only [chunk_reply, hlen, ite_false] at hc hN
    by_cases hgt : 1 < (chunkReplyCore (TG_MAX_CHARS - CHUNK_HEADER_MAX) text).length
    · rw [if_pos hgt] at hc hN
      rw [addLabelsAux_length] at hN
      obtain ⟨j, d, hd, hj, hx⟩ := addLabelsAux_mem _ _ _ _ hc
      have hlabel : (labelOf (0 + j) (chunkReplyCore (TG_MAX_CHARS - CHUNK_HEADER_MAX) text).length).length ≤ 8 :=
        labelOf_length_le _ _ (by omega) hN
      have hdlen : d.length ≤ TG_MAX_CHARS - CHUNK_HEADER_MAX :=
        chunkReplyCore_bounded _ hB text d hd
      rw [hx, List.length_append]
      omega
    · rw [if_neg hgt] at hc
      have := chunkReplyCore_bounded _ hB text c hc
      omega

theorem chunk_reply_chunks_bounded_witness :
    (chunk_reply "hi".data).length ≤ 99 ∧
      ((chunk_reply "hi".data).all (fun c => c.length ≤ TG_MAX_CHARS)) = true :=
  ⟨by decide, chunk_reply_chunks_bounded "hi".data (by decide)⟩

/-- Unfolding lemma: an over-budget sentence on an empty `current` goes
straight to the hard-cut loop. -/
theorem stepSentence_overflow (B : Nat) (cs : List (List Char)) (s : List Char)
    (h : ¬ s.length ≤ B) :
    stepSentence B { chunks := cs, current := [] } s =
      { chunks := cs ++ (hardCut B s).1, current := (hardCut B s).2 } := by
  simp [stepSentence, h]

/-- Unfolding lemma: an over-budget paragraph on an empty `current` enters the
sentence loop. -/
theorem stepPara_long (B : Nat) (cs : List (List Char)) (para : List Char)
    (h : ¬ para.length ≤ B) (h2 : B < para.length) :
    stepPara B { chunks := cs, current := [] } para =
      (splitNl (replDotSpace para)).foldl (stepSentence B)
        { chunks := cs, current := [] } := by
  simp [stepPara, h, h2]

theorem chunkReplyCore_expand (B : Nat) (text : List Char) :
    chunkReplyCore B text =
      if ((splitDbl text).foldl (stepPara B) { chunks := [], current := [] }).current = []
      then ((splitDbl text).foldl (stepPara B) { chunks := [], current := [] }).chunks
      else ((splitDbl text).foldl (stepPara B) { chunks := [], current := [] }).chunks ++
        [((splitDbl text).foldl (stepPara B) { chunks := [], current := [] }).current] := by
  simp only [chunkReplyCore]

theorem chunk_reply_expand (text : List Char) :
    chunk_reply text =
      if text.length ≤ TG_MAX_CHARS then [text]
      else if 1 < (chunkReplyCore (TG_MAX_CHARS - CHUNK_HEADER_MAX) text).length
      then addLabelsAux (chunkReplyCore (TG_MAX_CHARS - CHUNK_HEADER_MAX) text).length 0
        (chunkReplyCore (TG_MAX_CHARS - CHUNK_HEADER_MAX) text)
      else chunkReplyCore (TG_MAX_CHARS - CHUNK_HEADER_MAX) text := by
  simp only [chunk_reply]

/-- C3 counterexample: a single-paragraph, single-sentence text of
99 * 4088 + 1 = 404,713 identical characters hard-cuts into 100 chunks; the
chunk at index 9 carries the 9-character label "[10/100] " on top of a
4088-character slice, so its total length is 4097 > 4096.  The claim as
stated — for any resulting chunk count N — is therefore false. -/
theorem chunk_reply_label_overflow :
    TG_MAX_CHARS < (List.replicate (99 * 4088 + 1) 'a').length ∧
    ∃ c ∈ chunk_reply (List.replicate (99 * 4088 + 1) 'a'), TG_MAX_CHARS < c.length := by
  have hlen : (List.replicate (99 * 4088 + 1) 'a').length = 99 * 4088 + 1 :=
    List.length_replicate _ _
  have hB : TG_MAX_CHARS - CHUNK_HEADER_MAX = 4088 := rfl
  refine ⟨by rw [hlen]; decide, ?_⟩
  have hnonl : ('\n' : Char) ∉ List.replicate (99 * 4088 + 1) 'a' := by
    intro hmem
    exact absurd (List.mem_replicate.mp hmem).2 (by decide)
  have hnodot : ('.' : Char) ∉ List.replicate (99 * 4088 + 1) 'a' := by
    intro hmem
    exact absurd (List.mem_replicate.mp hmem).2 (by decide)
  have hsplit : splitDbl (List.replicate (99 * 4088 + 1) 'a') =
      [List.replicate (99 * 4088 + 1) 'a'] := by
    rw [splitDbl, splitDblAux_no_nl _ _ hnonl]
    rfl
  have hrepl : replDotSpace (List.replicate (99 * 4088 + 1) 'a') =
      List.replicate (99 * 4088 + 1) 'a' := replDotSpace_no_dot _ hnodot
  have hsplitnl : splitNl (List.replicate (99 * 4088 + 1) 'a') =
      [List.replicate (99 * 4088 + 1) 'a'] := by
    rw [splitNl, splitNlAux_no_nl _ _ hnonl]
    rfl
  have hhard : hardCut 4088 (List.replicate (99 * 4088 + 1) 'a') =
      (List.replicate 99 (List.replicate 4088 'a'), List.replicate 1 'a') :=
    hardCut_replicate 4088 (by decide) 99 1 (by decide) (by decide) 'a'
  have htoolong : ¬ (List.replicate (99 * 4088 + 1) 'a').length ≤ 4088 := by
    rw [hlen]; decide
  have hpara : stepPara 4088 { chunks := [], current := [] }
      (List.replicate (99 * 4088 + 1) 'a') =
      { chunks := List.replicate 99 (List.replicate 4088 'a'), current := ['a'] } := by
    rw [stepPara_long 4088 [] _ htoolong (by rw [hlen]; decide)]
    rw [hrepl, hsplitnl, List.foldl_cons, List.foldl_nil]
    rw [stepSentence_overflow 4088 [] _ htoolong, hhard]
    rfl
  have hcore : chunkReplyCore 4088 (List.replicate (99 * 4088 + 1) 'a') =
      List.replicate 99 (List.replicate 4088 'a') ++ [['a']] := by
    rw [chunkReplyCore_expand, hsplit, List.foldl_cons, List.foldl_nil, hpara]
    rw [if_neg (by decide)]
  have hcount : (List.replicate 99 (List.replicate 4088 'a') ++ [['a']]).length = 100 := by
    rw [List.length_append, List.length_replicate]
    rfl
  have hchunk : chunk_reply (List.replicate (99 * 4088 + 1) 'a') =
      addLabelsAux 100 0 (List.replicate 99 (List.replicate 4088 'a') ++ [['a']]) := by
    rw [chunk_reply_expand, if_neg (by rw [hlen]; decide), hB, hcore, hcount]
    rw [if_pos (by decide)]
  rw [hchunk]
  have h99 : List.replicate 99 (List.replicate 4088 'a') =
      List.replicate 9 (List.replicate 4088 'a') ++
        List.replicate 90 (List.replicate 4088 'a') := by
    rw [← List.replicate_add]
  rw [h99, List.append_assoc, addLabelsAux_append]
  refine ⟨labelOf 9 100 ++ List.replicate 4088 'a', ?_, ?_⟩
  · apply List.mem_append_right
    rw [show (0 + (List.replicate 9 (List.replicate 4088 'a')).length) = 9 from by
      rw [List.length_replicate]]
    rw [show (90 : Nat) = 89 + 1 from rfl, List.replicate_succ, List.cons_append]
    simp only [addLabelsAux]
    exact List.mem_cons_self _ _
  · rw [List.length_append, List.length_replicate,
      show (labelOf 9 100).length = 9 from by decide]
    decide

/-- C4 (amended): concatenating the chunks with their labels stripped (the
pre-labelling chunk list) preserves every non-whitespace character of the
input in order — whitespace may be normalized at paragraph/sentence
boundaries and nothing else is dropped, the hard-cut path included; and
`chunk_reply` returns at least one chunk PROVIDED the input contains at
least one non-whitespace character.  (As originally stated — at least one
chunk for every over-limit input — the claim is false: see the
counterexample.) -/
theorem chunk_reply_content_preserved (text : List Char) (h : fNW text ≠ []) :
    fNW (chunkReplyCore (TG_MAX_CHARS - CHUNK_HEADER_MAX) text).flatten = fNW text ∧
      chunk_reply text ≠ [] := by
  refine ⟨chunkReplyCore_cov _ text, ?_⟩
  by_cases hlen : text.length ≤ TG_MAX_CHARS
  · simp only [chunk_reply, hlen, ite_true]
    exact List.cons_ne_nil text []
  · simp only [chunk_reply, hlen, ite_false]
    have hcs : chunkReplyCore (TG_MAX_CHARS - CHUNK_HEADER_MAX) text ≠ [] := by
      intro hnil
      have hcov := chunkReplyCore_cov (TG_MAX_CHARS - CHUNK_HEADER_MAX) text
      rw [hnil] at hcov
      simp only [List.flatten_nil] at hcov
      exact h (hcov.symm.trans (show fNW [] = [] from rfl))
    split
    · obtain ⟨a, as, hcase⟩ := List.exists_cons_of_ne_nil hcs
      rw [hcase]
      simp [addLabelsAux]
    · exact hcs

theorem chunk_reply_content_preserved_witness :
    fNW "hi".data ≠ [] ∧
      (fNW (chunkReplyCore (TG_MAX_CHARS - CHUNK_HEADER_MAX) "hi".data).flatten =
          fNW "hi".data ∧
        chunk_reply "hi".data ≠ []) :=
  ⟨by decide, chunk_reply_content_preserved "hi".data (by decide)⟩

/-- C4 counterexample: a 4098-character all-whitespace text (4098 newlines)
exceeds the 4096 limit, yet `chunk_reply` returns NO chunks at all — the
paragraph splitter yields only empty paragraphs, nothing is ever flushed, and
the empty chunk list is returned, so "at least one chunk" is false. -/
theorem chunk_reply_whitespace_empty :
    TG_MAX_CHARS < (List.replicate 4098 '\n').length ∧
      chunk_reply (List.replicate 4098 '\n') = [] := by
  have hlen : (List.replicate 4098 '\n').length = 4098 := List.length_replicate _ _
  refine ⟨by rw [hlen]; decide, ?_⟩
  have hsplit : splitDbl (List.replicate 4098 '\n') = List.replicate 2050 [] := by
    rw [splitDbl, show (4098 : Nat) = 2 * 2049 from rfl, splitDblAux_nl_repl]
  have hstep : stepPara (TG_MAX_CHARS - CHUNK_HEADER_MAX)
      { chunks := [], current := [] } [] = { chunks := [], current := [] } := by
    simp [stepPara]
  have hfold : (List.replicate 2050 ([] : List Char)).foldl
      (stepPara (TG_MAX_CHARS - CHUNK_HEADER_MAX)) { chunks := [], current := [] } =
      { chunks := [], current := [] } :=
    foldl_replicate_fixed _ _ _ hstep 2050
  have hcore : chunkReplyCore (TG_MAX_CHARS - CHUNK_HEADER_MAX)
      (List.replicate 4098 '\n') = [] := by
    rw [chunkReplyCore_expand, hsplit, hfold]
    rfl
  have hnotle : ¬ (List.replicate 4098 '\n').length ≤ TG_MAX_CHARS := by
    rw [hlen]; decide
  rw [chunk_reply_expand, if_neg hnotle, hcore]
  rfl

/- ---------------------------------------------------------------------------
Association-list lemmas (dict semantics).
--------------------------------------------------------------------------- -/

theorem lookup_cons {α β : Type} [BEq α] [LawfulBEq α] [DecidableEq α]
    (k pk : α) (pv : β) (rest : List (α × β)) :
    ((pk, pv) :: rest).lookup k = if k = pk then some pv else rest.lookup k := by
  by_cases h : k = pk
  · subst h
    simp [List.lookup]
  · simp [List.lookup, beq_eq_false_iff_ne.mpr h, h]

theorem lookup_sSet (s : List (String × String)) (k v k' : String) :
    (sSet s k v).lookup k' = if k' = k then some v else s.lookup k' := by
  induction s with
  | nil =>
    by_cases h : k' = k
    · subst h
      simp [sSet, List.lookup]
    · simp [sSet, List.lookup, h, beq_eq_false_iff_ne.mpr h]
  | cons p rest ih =>
    obtain ⟨pk, pv⟩ := p
    by_cases hp : pk = k
    · subst hp
      simp only [sSet, ite_true]
      rw [lookup_cons, lookup_cons]
      by_cases h : k' = pk <;> simp [h]
    · simp only [sSet, if_neg hp]
      rw [lookup_cons, lookup_cons, ih]
      by_cases h1 : k' = pk
      · rw [if_pos h1, if_pos h1, if_neg (fun h2 => hp (h1.symm.trans h2))]
      · rw [if_neg h1, if_neg h1]

theorem lookup_filter_ne {α β : Type} [BEq α] [LawfulBEq α] [DecidableEq α]
    (m : List (α × β)) (k k' : α) :
    (m.filter (fun p => p.1 != k)).lookup k' = if k' = k then none else m.lookup k' := by
  induction m with
  | nil => by_cases h : k' = k <;> simp [List.lookup, h]
  | cons p rest ih =>
    obtain ⟨pk, pv⟩ := p
    by_cases hp : pk = k
    · subst hp
      have hcond : ((pk, pv).1 != pk) = false := by simp
      rw [List.filter_cons, hcond]
      simp only [Bool.false_eq_true, ite_false]
      rw [ih, lookup_cons]
      by_cases h : k' = pk
      · rw [if_pos h, if_pos h]
      · rw [if_neg h, if_neg h, if_neg h]
    · have hcond : ((pk, pv).1 != k) = true := by simp [hp]
      rw [List.filter_cons, hcond]
      simp only [ite_true]
      rw [lookup_cons, lookup_cons, ih]
      by_cases h1 : k' = pk
      · rw [if_pos h1, if_pos h1, if_neg (fun h2 => hp (h1.symm.trans h2))]
      · rw [if_neg h1, if_neg h1]

theorem lookup_sDel (s : List (String × String)) (k k' : String) :
    (sDel s k).lookup k' = if k' = k then none else s.lookup k' :=
  lookup_filter_ne s k k'

theorem lookup_popKey {α : Type} (m : List (Int × α)) (k k' : Int) :
    (popKey m k).lookup k' = if k' = k then none else m.lookup k' :=
  lookup_filter_ne m k k'

theorem popKey_idem {α : Type} (m : List (Int × α)) (k : Int) :
    popKey (popKey m k) k = popKey m k := by
  induction m with
  | nil => rfl
  | cons p rest ih =>
    by_cases hp : p.1 = k
    · have hcond : (p.1 != k) = false := by simp [hp]
      simp only [popKey, List.filter_cons, hcond, Bool.false_eq_true, ite_false]
      exact ih
    · have hcond : (p.1 != k) = true := by simp [hp]
      simp only [popKey, List.filter_cons, hcond, ite_true]
      show p :: popKey (popKey rest k) k = p :: popKey rest k
      rw [ih]

theorem lookup_append_absent {α β : Type} [BEq α] [LawfulBEq α] [DecidableEq α]
    (m : List (α × β)) (k : α) (v : β) (h : m.lookup k = none) :
    (m ++ [(k, v)]).lookup k = some v := by
  induction m with
  | nil => simp [List.lookup]
  | cons p rest ih =>
    obtain ⟨pk, pv⟩ := p
    by_cases hq : k = pk
    · rw [lookup_cons, if_pos hq] at h
      exact absurd h (by simp)
    · rw [List.cons_append, lookup_cons, if_neg hq]
      rw [lookup_cons, if_neg hq] at h
      exact ih h

theorem goodSessionsB_sSet (s : List (String × String)) (k v : String)
    (hv : v ≠ "") (hs : goodSessionsB s = true) : goodSessionsB (sSet s k v) = true := by
  induction s with
  | nil => simp [sSet, goodSessionsB, hv]
  | cons p rest ih =>
    simp only [goodSessionsB, List.all_cons, Bool.and_eq_true] at hs
    by_cases hp : p.1 = k
    · simp only [sSet, hp, ite_true]
      simp [goodSessionsB, List.all_cons, hv, hs.2]
    · simp only [sSet, if_neg hp]
      have hrest : (sSet rest k v).all (fun p => p.2 != "") = true := ih hs.2
      simp [goodSessionsB, List.all_cons, hs.1, hrest]

theorem goodSessionsB_sDel (s : List (String × String)) (k : String)
    (hs : goodSessionsB s = true) : goodSessionsB (sDel s k) = true := by
  simp only [goodSessionsB, List.all_eq_true] at hs ⊢
  intro p hp
  exact hs p (List.mem_of_mem_filter hp)

/- ---------------------------------------------------------------------------
C5 / C8: conversation gate.
--------------------------------------------------------------------------- -/

/-- C5: acquiring an idle (conversation, class) slot succeeds — the unit is
marked in flight and submitted; while the slot is in flight a second acquire
for the same pair fails immediately: the sender gets the busy notice and the
trace shows no submission, so the superseding message never reaches the
backend; the same holds per class (chat shown by an acquire/re-acquire pair,
task shown on a busy slot). -/
theorem gate_busy_rejects (ex : Nat) (p1 p2 taskText t : String) (c : Int)
    (chats : List (Int × Bool)) (tasks : List (Int × String))
    (hIdle : chats.lookup c = none) (hBusy : tasks.lookup c = some t) :
    queue_chat ex p1 c chats = (chats ++ [(c, true)], [Effect.submitChat ex c p1]) ∧
    queue_chat ex p2 c (chats ++ [(c, true)]) =
      (chats ++ [(c, true)],
       [Effect.sendText c "Still thinking about your previous message…"]) ∧
    queue_agent_loop_task ex taskText c tasks =
      (tasks, [Effect.sendText c ("A task is already running: " ++ takeStr 80 t)]) := by
  refine ⟨?_, ?_, ?_⟩
  · rw [queue_chat, if_neg (by rw [hIdle]; simp)]
  · rw [queue_chat, if_pos (by rw [lookup_append_absent chats c true hIdle]; simp)]
  · simp only [queue_agent_loop_task, hBusy]

theorem gate_busy_rejects_witness :
    queue_chat 0 "p1" 7 [] = ([(7, true)], [Effect.submitChat 0 7 "p1"]) ∧
    queue_chat 0 "p2" 7 [(7, true)] =
      ([(7, true)],
       [Effect.sendText 7 "Still thinking about your previous message…"]) ∧
    queue_agent_loop_task 0 "t2" 7 [(7, "longjob")] =
      ([(7, "longjob")],
       [Effect.sendText 7 ("A task is already running: " ++ takeStr 80 "longjob")]) := by
  have h := gate_busy_rejects 0 "p1" "p2" "t2" "longjob" 7 [] [(7, "longjob")]
    (by decide) (by decide)
  simpa using h

/-- C8: releasing a (conversation, class) slot is idempotent and total —
`pop(chat_id, None)` never raises, equals pointwise the map with the key
absent (so releasing a never-acquired or already-Idle slot is a no-op on
every other key and leaves this key Idle), releasing twice equals releasing
once, and both completion callbacks perform the release whatever the outcome
of the unit of work (normal result or exception). -/
theorem release_idempotent (tasks : List (Int × String)) (chats : List (Int × Bool))
    (k k' : Int) (o1 : Except String String) (o2 : Except String Unit) :
    (popKey tasks k).lookup k' = (if k' = k then none else tasks.lookup k') ∧
    popKey (popKey tasks k) k = popKey tasks k ∧
    (popKey chats k).lookup k' = (if k' = k then none else chats.lookup k') ∧
    popKey (popKey chats k) k = popKey chats k ∧
    (taskDoneCallback o1 k tasks).1 = popKey tasks k ∧
    (chatDoneCallback o2 k chats).1 = popKey chats k :=
  ⟨lookup_popKey tasks k k', popKey_idem tasks k, lookup_popKey chats k k',
   popKey_idem chats k, rfl, rfl⟩

/- ---------------------------------------------------------------------------
C6 / C7 / C9: backend invocation and the session store.
--------------------------------------------------------------------------- -/

/-- C6: the subprocess timeout is 300 seconds; on timeout `run_claude_chat`
returns the fixed timeout sentinel, and after the dispatch completes the
stored resume handle of every conversation — in particular the dispatching
one — equals its value before the dispatch. -/
theorem timeout_preserves_session (chatId : Int) (sessions : List (String × String))
    (model systemPrompt soul prompt sid : String) (k : String) :
    claudeTimeoutSeconds = 300 ∧
    (run_claude_chat RunOutcome.timedOut sid).1 = timeoutSentinel ∧
    (runChatTurn RunOutcome.timedOut chatId sessions model systemPrompt soul prompt).1.lookup k
      = sessions.lookup k := by
  refine ⟨rfl, rfl, ?_⟩
  simp only [runChatTurn, run_claude_chat]
  cases hv : sessions.lookup (toString chatId) with
  | none =>
    simp only [hv, Option.getD_none]
    rw [if_neg (by simp)]
  | some v =>
    simp only [hv, Option.getD_some]
    by_cases hve : v = ""
    · subst hve
      rw [if_neg (by simp)]
    · rw [if_pos (by simp [hve]), lookup_sSet]
      by_cases hk : k = toString chatId
      · rw [if_pos hk, hk, hv]
      · rw [if_neg hk]

/-- C7: `/reset` deletes the issuing conversation's session entry and
persists the deletion (a `saveSessions` write appears in the trace); the
entry is absent afterwards while all other keys are untouched and the config
is unchanged; and a backend invocation without a stored handle is built with
`--system-prompt` — and no `--resume` flag — so the next turn is seeded with
the system prompt instead of resuming. -/
theorem reset_clears_session (chatId : Int) (sessions : List (String × String))
    (activeTasks : List (Int × String)) (cfg : Cfg) (k model sys prompt v : String)
    (hv : sessions.lookup (toString chatId) = some v) :
    (handle_command "/reset".data chatId sessions activeTasks cfg).1.lookup (toString chatId)
      = none ∧
    (handle_command "/reset".data chatId sessions activeTasks cfg).1.lookup k
      = (if k = toString chatId then none else sessions.lookup k) ∧
    (handle_command "/reset".data chatId sessions activeTasks cfg).2.1 = cfg ∧
    Effect.saveSessions ∈ (handle_command "/reset".data chatId sessions activeTasks cfg).2.2 ∧
    buildClaudeCmd model "" sys prompt =
      ["claude", "-p", "--dangerously-skip-permissions", "--output-format", "json",
       "--model", model, "--system-prompt", sys, prompt] := by
  have hcmd : cmdOf "/reset".data = "/reset".data := by decide
  have hsome : (sessions.lookup (toString chatId)).isSome = true := by
    rw [hv]; rfl
  simp only [handle_command, hcmd, ite_true]
  rw [if_pos hsome]
  refine ⟨?_, ?_, rfl, ?_, ?_⟩
  · rw [lookup_sDel, if_pos rfl]
  · rw [lookup_sDel]
  · exact List.mem_cons_self _ _
  · rw [buildClaudeCmd, if_neg (by simp)]
    rfl

theorem reset_clears_session_witness :
    (handle_command "/reset".data 5 [("5", "sess")] []
      { mode := "chat", model := "sonnet", systemPrompt := "sp", soul := "",
        allowedIds := [], token := "tk" }).1.lookup (toString (5 : Int)) = none :=
  (reset_clears_session 5 [("5", "sess")] []
    { mode := "chat", model := "sonnet", systemPrompt := "sp", soul := "",
      allowedIds := [], token := "tk" } "8" "m" "sp" "pr" "sess" (by decide)).1

/-- Helper: when a chat turn's returned handle is the stored one (or empty),
the session store is lookup-equal to what it was. -/
theorem runChatTurn_lookup_eq (o : RunOutcome) (chatId : Int)
    (sessions : List (String × String)) (model sys soul prompt k : String)
    (h : (run_claude_chat o ((sessions.lookup (toString chatId)).getD "")).2 =
          (sessions.lookup (toString chatId)).getD "" ∨
         (run_claude_chat o ((sessions.lookup (toString chatId)).getD "")).2 = "") :
    (runChatTurn o chatId sessions model sys soul prompt).1.lookup k = sessions.lookup k := by
  simp only [runChatTurn]
  cases hv : sessions.lookup (toString chatId) with
  | none =>
    rw [hv] at h
    simp only [Option.getD_none] at h ⊢
    rcases h with h | h <;>
    · rw [if_neg (by rw [h]; simp)]
  | some v =>
    rw [hv] at h
    simp only [Option.getD_some] at h ⊢
    rcases h with h | h
    · by_cases hve : v = ""
      · subst hve
        rw [if_neg (by rw [h]; simp)]
      · rw [if_pos (by rw [h]; simpa using hve), lookup_sSet]
        by_cases hk : k = toString chatId
        · rw [if_pos hk, hk, hv, h]
        · rw [if_neg hk]
    · rw [if_neg (by rw [h]; simp)]

/-- C9: the session store never holds an empty resume handle — any chat turn
preserves the nonempty-values invariant (only non-empty handles are ever
written); non-`/reset` commands leave the store identical and `/reset`
preserves the invariant; a failing turn (timeout, missing CLI, non-zero exit,
malformed output) or one returning no session id leaves every stored handle
unchanged; and a chat turn never removes an entry. -/
theorem sessions_never_empty (sessions : List (String × String)) (o o2 : RunOutcome)
    (chatId cid : Int) (model sys soul prompt k : String) (text : List Char)
    (activeTasks : List (Int × String)) (cfg : Cfg)
    (hs : goodSessionsB sessions = true) (hf : failedOutcome o = true)
    (hcmd : cmdOf text ≠ "/reset".data) :
    goodSessionsB (runChatTurn o2 chatId sessions model sys soul prompt).1 = true ∧
    (handle_command text cid sessions activeTasks cfg).1 = sessions ∧
    goodSessionsB (handle_command "/reset".data cid sessions activeTasks cfg).1 = true ∧
    (runChatTurn o chatId sessions model sys soul prompt).1.lookup k = sessions.lookup k ∧
    (sessions.lookup k).isSome ≤
      ((runChatTurn o2 chatId sessions model sys soul prompt).1.lookup k).isSome := by
  refine ⟨?_, ?_, ?_, ?_, ?_⟩
  · simp only [runChatTurn]
    by_cases hw : (run_claude_chat o2 ((sessions.lookup (toString chatId)).getD "")).2 != ""
    · rw [if_pos hw]
      exact goodSessionsB_sSet _ _ _ (by simpa using hw) hs
    · rw [if_neg hw]
      exact hs
  · simp only [handle_command]
    rw [if_neg hcmd]
    split_ifs <;> rfl
  · have hc : cmdOf "/reset".data = "/reset".data := by decide
    simp only [handle_command, hc, ite_true]
    by_cases hsome : (sessions.lookup (toString cid)).isSome = true
    · rw [if_pos hsome]
      exact goodSessionsB_sDel _ _ hs
    · rw [if_neg hsome]
      exact hs
  · apply runChatTurn_lookup_eq
    cases o with
    | timedOut => exact Or.inl rfl
    | cliMissing => exact Or.inr rfl
    | exitNonzero e s => exact Or.inl rfl
    | outputNotJson s => exact Or.inl rfl
    | outputJson res sid =>
      left
      have hsid : sid = "" := by simpa [failedOutcome] using hf
      simp [run_claude_chat, hsid]
  · simp only [runChatTurn]
    by_cases hw : (run_claude_chat o2 ((sessions.lookup (toString chatId)).getD "")).2 != ""
    · rw [if_pos hw, lookup_sSet]
      by_cases hk : k = toString chatId
      · rw [if_pos hk]
        simp
      · rw [if_neg hk]
    · rw [if_neg hw]

theorem sessions_never_empty_witness :
    goodSessionsB (runChatTurn (RunOutcome.outputJson "hi" "s2") 1 [("1", "abc")]
      "m" "sp" "" "pr").1 = true ∧
    (runChatTurn RunOutcome.timedOut 1 [("1", "abc")] "m" "sp" "" "pr").1.lookup "1"
      = [("1", "abc")].lookup "1" := by
  have h := sessions_never_empty [("1", "abc")] RunOutcome.timedOut
    (RunOutcome.outputJson "hi" "s2") 1 2 "m" "sp" "" "pr" "1" "/help".data []
    { mode := "chat", model := "sonnet", systemPrompt := "sp", soul := "",
      allowedIds := [], token := "tk" }
    (by decide) (by decide) (by decide)
  exact ⟨h.1, h.2.2.2.1⟩

/- ---------------------------------------------------------------------------
C10 / C2: dispatch routing and executor wiring.
--------------------------------------------------------------------------- -/

/-- C10: the chat/task mode is a single process-wide configuration field.
`/mode task` issued in any conversation `c1` rewrites exactly the `mode`
field of the one shared config (all other fields and the session store are
untouched), and afterwards a free-text, authorized message in ANY
conversation is routed to the task queue. -/
theorem mode_is_global (st : AgentState) (c1 : Int) (ex : Nat) (m : TgMsg)
    (hne : pyStripStr m.text ≠ "")
    (hnc : ¬ (pyStripStr m.text).data.head? = some '/')
    (hauth : ¬ (st.cfg.allowedIds ≠ [] ∧ m.fromId ∉ st.cfg.allowedIds)) :
    (handle_command "/mode task".data c1 st.sessions st.activeTasks st.cfg).2.1 =
      { st.cfg with mode := "task" } ∧
    (handle_command "/mode task".data c1 st.sessions st.activeTasks st.cfg).1 =
      st.sessions ∧
    (dispatch_message ex m { st with cfg := { st.cfg with mode := "task" } }).2 =
      (queue_agent_loop_task ex (pyStripStr m.text) m.chatId st.activeTasks).2 ∧
    (dispatch_message ex m { st with cfg := { st.cfg with mode := "task" } }).1.activeTasks =
      (queue_agent_loop_task ex (pyStripStr m.text) m.chatId st.activeTasks).1 := by
  have hc : cmdOf "/mode task".data = "/mode".data := by decide
  have ha : argsOf "/mode task".data = "task".data := by decide
  refine ⟨?_, ?_, ?_, ?_⟩
  · simp only [handle_command, hc, ha]
    rw [if_neg (by decide), if_pos (by decide), if_pos (Or.inr trivial)]
  · simp only [handle_command, hc, ha]
    rw [if_neg (by decide), if_pos (by decide), if_pos (Or.inr trivial)]
  · simp only [dispatch_message]
    rw [if_neg hne, if_neg hauth, if_neg hnc, if_pos trivial]
  · simp only [dispatch_message]
    rw [if_neg hne, if_neg hauth, if_neg hnc, if_pos trivial]

theorem mode_is_global_witness :
    (dispatch_message 0 { chatId := 55, fromId := 9, text := "hello", username := "u" }
      { sessions := [],
        cfg := { mode := "task", model := "sonnet", systemPrompt := "sp",
                 soul := "", allowedIds := [9], token := "tk" },
        activeChats := [], activeTasks := [] }).2 =
      (queue_agent_loop_task 0 (pyStripStr "hello") 55 []).2 := by
  have h := mode_is_global
    { sessions := [],
      cfg := { mode := "chat", model := "sonnet", systemPrompt := "sp",
               soul := "", allowedIds := [9], token := "tk" },
      activeChats := [], activeTasks := [] } 3 0
    { chatId := 55, fromId := 9, text := "hello", username := "u" }
    (by decide) (by decide) (by decide)
  exact h.2.2.1

/-- C2: evidence for the two-pool claim's failure in the code — telegram
`main` creates exactly one worker pool (`ThreadPoolExecutor(max_workers=4)`,
capacity list of length one), and `dispatch_message` funnels EVERY submission
of either work class into the single executor argument it receives, so four
in-flight task units occupy the same pool chat units must run on.  (The
repository's own tests call `dispatch_message(msg, sessions, cfg, chat_exec,
task_exec)` with two executors; the code's signature takes one.) -/
theorem single_shared_executor (ex : Nat) (m : TgMsg) (st : AgentState) :
    tgMainExecutorCapacities = [4] ∧ telegramMaxWorkers = 4 ∧
    (((dispatch_message ex m st).2.filterMap execOf).all (fun e => e = ex)) = true := by
  refine ⟨rfl, rfl, ?_⟩
  have hcmd : ∀ (text : List Char) (cid : Int) (s : List (String × String))
      (tasks : List (Int × String)) (cfg : Cfg),
      (handle_command text cid s tasks cfg).2.2.filterMap execOf = [] := by
    intro text cid s tasks cfg
    simp only [handle_command]
    split_ifs <;> simp [execOf]
  simp only [dispatch_message]
  split_ifs
  · rfl
  · rfl
  · rw [hcmd]
    rfl
  · simp only [queue_agent_loop_task]
    cases st.activeTasks.lookup m.chatId <;> simp [execOf]
  · simp only [queue_chat]
    split_ifs <;> simp [execOf]

/- ---------------------------------------------------------------------------
C1: cursor machinery — lexicographic order, telegram offsets, teams fetch.
--------------------------------------------------------------------------- -/

theorem lexLt_asymm (a b : List Char) (h : lexLt a b = true) : lexLt b a = false := by
  induction a generalizing b with
  | nil =>
    cases b with
    | nil => simp [lexLt] at h
    | cons d bs => simp [lexLt]
  | cons c as ih =>
    cases b with
    | nil => simp [lexLt] at h
    | cons d bs =>
      simp only [lexLt] at h ⊢
      rcases lt_trichotomy c d with h1 | h1 | h1
      · simp [h1, lt_asymm h1]
      · subst h1
        simp [lt_irrefl] at h ⊢
        exact ih bs h
      · simp [h1, lt_asymm h1] at h

theorem lexLt_trans (a b c : List Char) (h1 : lexLt a b = true) (h2 : lexLt b c = true) :
    lexLt a c = true := by
  induction a generalizing b c with
  | nil =>
    cases c with
    | nil =>
      cases b with
      | nil => exact h1
      | cons d bs => simp [lexLt] at h2
    | cons e cs => simp [lexLt]
  | cons x as ih =>
    cases b with
    | nil => simp [lexLt] at h1
    | cons y bs =>
      cases c with
      | nil => simp [lexLt] at h2
      | cons z cs =>
        simp only [lexLt] at h1 h2 ⊢
        by_cases hxy : x < y
        · by_cases hyz : y < z
          · simp [lt_trans hxy hyz]
          · by_cases hzy : z < y
            · simp [hyz, hzy] at h2
            · have hyzeq : y = z := le_antisymm (not_lt.mp hzy) (not_lt.mp hyz)
              subst hyzeq
              simp [hxy]
        · by_cases hyx : y < x
          · simp [hxy, hyx] at h1
          · have hxyeq : x = y := le_antisymm (not_lt.mp hyx) (not_lt.mp hxy)
            subst hxyeq
            by_cases hyz : x < z
            · simp [hyz]
            · by_cases hzy : z < x
              · simp [hyz, hzy] at h2
              · have hxzeq : x = z := le_antisymm (not_lt.mp hzy) (not_lt.mp hyz)
                subst hxzeq
                simp [hyz, hzy] at h1 h2 ⊢
                exact ih bs cs h1 h2

theorem lexLt_nil_right (a : List Char) : lexLt a [] = false := by
  cases a <;> rfl

theorem strLt_trans (a b c : String) (h1 : strLt a b = true) (h2 : strLt b c = true) :
    strLt a c = true :=
  lexLt_trans a.data b.data c.data h1 h2

theorem strLt_asymm (a b : String) (h : strLt a b = true) : strLt b a = false :=
  lexLt_asymm a.data b.data h

theorem strLt_empty_right (a : String) : strLt a "" = false :=
  lexLt_nil_right a.data

theorem descChainB_tail (a : TeamsItem) (l : List TeamsItem)
    (h : descChainB (a :: l) = true) : descChainB l = true := by
  cases l with
  | nil => rfl
  | cons b r => exact ((Bool.and_eq_true _ _).mp h).2

theorem descChainB_head_gt (a : TeamsItem) (l : List TeamsItem)
    (h : descChainB (a :: l) = true) : ∀ b ∈ l, strLt b.id a.id = true := by
  induction l generalizing a with
  | nil => intro b hb; cases hb
  | cons b r ih =>
    intro x hx
    have h1 : strLt b.id a.id = true := ((Bool.and_eq_true _ _).mp h).1
    have h2 : descChainB (b :: r) = true := ((Bool.and_eq_true _ _).mp h).2
    rcases List.mem_cons.mp hx with rfl | hx
    · exact h1
    · exact strLt_trans _ _ _ (ih b h2 x hx) h1

theorem listMax_const (m : String) (ids : List String)
    (h : ∀ b ∈ ids, strLt m b = false) : listMax m ids = m := by
  induction ids with
  | nil => rfl
  | cons b r ih =>
    simp only [listMax, List.foldl_cons]
    rw [h b (List.mem_cons_self b r)]
    simp only [Bool.false_eq_true, ite_false]
    exact ih (fun x hx => h x (List.mem_cons_of_mem b hx))

theorem savedOffsets_append (a b : List Effect) :
    savedOffsets (a ++ b) = savedOffsets a ++ savedOffsets b := by
  simp [savedOffsets]

theorem savedOffsets_save_cons (o : Nat) (l : List Effect) :
    savedOffsets (Effect.saveOffset o :: l) = o :: savedOffsets l := by
  simp [savedOffsets]

theorem dispatch_no_saveOffset (ex : Nat) (m : TgMsg) (st : AgentState) :
    savedOffsets (dispatch_message ex m st).2 = [] := by
  have hcmd : ∀ (text : List Char) (cid : Int) (s : List (String × String))
      (tasks : List (Int × String)) (cfg : Cfg),
      savedOffsets (handle_command text cid s tasks cfg).2.2 = [] := by
    intro text cid s tasks cfg
    simp only [handle_command]
    split_ifs <;> simp [savedOffsets]
  simp only [dispatch_message]
  split_ifs
  · rfl
  · rfl
  · rw [hcmd]
  · simp only [queue_agent_loop_task]
    cases st.activeTasks.lookup m.chatId <;> simp [savedOffsets]
  · simp only [queue_chat]
    split_ifs <;> simp [savedOffsets]

theorem tg_saved_offsets (ex : Nat) : ∀ (updates : List TgUpdate) (offset0 : Nat)
    (st : AgentState),
    savedOffsets (tgProcessUpdates ex offset0 st updates).2.2 =
      updates.map (fun u => u.updateId + 1) := by
  intro updates
  induction updates with
  | nil => intro offset0 st; rfl
  | cons u rest ih =>
    intro offset0 st
    simp only [tgProcessUpdates]
    cases hm : u.message.or u.editedMessage with
    | some m =>
      simp only [savedOffsets_save_cons, savedOffsets_append, dispatch_no_saveOffset,
        List.nil_append, ih, List.map_cons]
    | none =>
      simp only [savedOffsets_save_cons, ih, List.map_cons]

theorem tg_final_offset (ex : Nat) : ∀ (updates : List TgUpdate) (offset0 : Nat)
    (st : AgentState),
    (tgProcessUpdates ex offset0 st updates).1 =
      updates.foldl (fun _ u => u.updateId + 1) offset0 := by
  intro updates
  induction updates with
  | nil => intro offset0 st; rfl
  | cons u rest ih =>
    intro offset0 st
    simp only [tgProcessUpdates, List.foldl_cons]
    cases hm : u.message.or u.editedMessage with
    | some m => exact ih _ _
    | none => exact ih _ _

theorem teamsFetchLoop_max (selfId chatId lastSeen : String) :
    ∀ (items : List TeamsItem) (m : String), descChainB items = true →
      (teamsFetchLoop selfId chatId lastSeen items m).2 =
        listMax m (items.map (fun it => it.id)) := by
  intro items
  induction items with
  | nil => intro m _; rfl
  | cons item rest ih =>
    intro m hdesc
    have hdesc' : descChainB rest = true := descChainB_tail item rest hdesc
    have hgt := descChainB_head_gt item rest hdesc
    simp only [teamsFetchLoop, List.map_cons, listMax, List.foldl_cons]
    by_cases hid : item.id = ""
    · rw [if_pos hid, hid, strLt_empty_right]
      simp only [Bool.false_eq_true, ite_false]
      exact ih m hdesc'
    · rw [if_neg hid]
      set m1 := if strLt m item.id = true then item.id else m with hm1
      by_cases hbreak : lastSeen ≠ "" ∧ strLt lastSeen item.id = false
      · rw [if_pos hbreak]
        have hrest : ∀ b ∈ rest.map (fun it => it.id), strLt m1 b = false := by
          intro b hb
          obtain ⟨it, hit, rfl⟩ := List.mem_map.mp hb
          have hlt : strLt it.id item.id = true := hgt it hit
          rw [hm1]
          by_cases hmi : strLt m item.id = true
          · rw [if_pos hmi]
            exact strLt_asymm _ _ hlt
          · rw [if_neg hmi]
            by_cases hmb : strLt m it.id = true
            · exact absurd (strLt_trans _ _ _ hmb hlt) hmi
            · simpa using hmb
        exact (listMax_const m1 _ hrest).symm
      · rw [if_neg hbreak]
        by_cases htype : item.messageType ≠ "message"
        · rw [if_pos htype]
          exact ih m1 hdesc'
        · rw [if_neg htype]
          by_cases htext : (if item.contentType = "html" then teams_strip_html item.content
              else pyStripStr item.content) = ""
          · rw [if_pos htext]
            exact ih m1 hdesc'
          · rw [if_neg htext]
            by_cases hself : item.fromUserId = selfId
            · rw [if_pos hself]
              exact ih m1 hdesc'
            · rw [if_neg hself]
              exact ih m1 hdesc'

/-- C1 (amended): in the Telegram agent, one poll iteration persists
`update_id + 1` for EVERY update — before and regardless of the text/type and
authorization filtering inside `dispatch_message` — and ends with the offset
one past the last update's id; in the Teams agent, `_fetch_messages_since`
returns as its new high-water mark the maximum of the stored cursor value and
ALL fetched message ids, regardless of message type, content or sender,
provided the fetch is newest-first (the order the Graph API is asked for).
The Instagram agent does NOT satisfy the claim: its cursor advances only for
messages that pass the type and authorization filters (see the
counterexample). -/
theorem cursor_advances_regardless (ex : Nat) (offset0 : Nat) (st : AgentState)
    (updates : List TgUpdate) (selfId chatId lastSeen : String)
    (items : List TeamsItem) (hdesc : descChainB items = true) :
    savedOffsets (tgProcessUpdates ex offset0 st updates).2.2 =
      updates.map (fun u => u.updateId + 1) ∧
    (tgProcessUpdates ex offset0 st updates).1 =
      updates.foldl (fun _ u => u.updateId + 1) offset0 ∧
    (teams_fetch_messages_since selfId chatId lastSeen items).2 =
      listMax lastSeen (items.map (fun it => it.id)) :=
  ⟨tg_saved_offsets ex updates offset0 st, tg_final_offset ex updates offset0 st,
   teamsFetchLoop_max selfId chatId lastSeen items lastSeen hdesc⟩

theorem cursor_advances_regardless_witness :
    savedOffsets (tgProcessUpdates 0 5
        { sessions := [],
          cfg := { mode := "chat", model := "sonnet", systemPrompt := "sp",
                   soul := "", allowedIds := [], token := "tk" },
          activeChats := [], activeTasks := [] }
        [{ updateId := 10, message := none, editedMessage := none }]).2.2 = [11] ∧
    (teams_fetch_messages_since "self" "c1" ""
        [{ id := "200", messageType := "systemEventMessage", contentType := "text",
           content := "", fromUserId := "self", fromName := none }]).2 =
      listMax "" ["200"] := by
  have h := cursor_advances_regardless 0 5
    { sessions := [],
      cfg := { mode := "chat", model := "sonnet", systemPrompt := "sp",
               soul := "", allowedIds := [], token := "tk" },
      activeChats := [], activeTasks := [] }
    [{ updateId := 10, message := none, editedMessage := none }] "self" "c1" ""
    [{ id := "200", messageType := "systemEventMessage", contentType := "text",
       content := "", fromUserId := "self", fromName := none }] (by decide)
  exact ⟨h.1, h.2.2⟩

/-- C1 counterexample (Instagram): a poll over a thread whose single item —
carrying the highest observed marker "5" — is non-text leaves the cursor
empty and saves nothing, so the persisted cursor does not equal the highest
marker observed in the fetch and the filtered item is examined as new again
on every later poll. -/
theorem ig_cursor_not_advanced :
    "5" ∈ demoIgThread.items.map (fun it => it.itemId) ∧
    ig_poll_new_messages ["alice"] [] [demoIgThread] = ([], [], false) := by
  constructor
  · decide
  · decide
